import Mathlib

/-!
Formal model of the RSS ingestion pipeline of `backend/services/rss_ingest.py`
(together with the `items` schema of `backend/scripts/init_db.py`).

Conventions of the embedding:
* timestamps are `Int` seconds (Postgres `now()` and Python
  `datetime.now(timezone.utc)` are modelled by one clock value `now`);
* a database table is a `List` of row structures, in row order; SQL
  `INSERT ... ON CONFLICT` updates the first row carrying the conflicting
  key and otherwise appends a fresh row at the end;
* generated UUID primary keys (`items.id`, `runs.id`, `feed_run_errors.id`)
  are omitted from the row structures: no code path under scrutiny reads them;
* network and parsing effects are supplied as explicit arguments (the outcome
  of each HTTP attempt, the parsed entry list of a response body).
-/

namespace RssIngest

/-- One feedparser entry as consumed by `insert_items` / `parse_published_date`:
every field the code probes with `getattr` is optional (`none` models both an
absent attribute and a `None`/empty value where the code treats them alike). -/
structure Entry where
  title : Option String
  link : Option String
  summary : Option String
  description : Option String
  /-- result of `parse_published_date entry` (already-parsed optional date). -/
  published : Option Int
deriving DecidableEq, Repr

/-- `getattr(entry, 'title', '') or ''` (line 181). -/
def entryTitle (e : Entry) : String := e.title.getD ""

/-- `getattr(entry, 'link', '') or ''` (line 182). -/
def entryLink (e : Entry) : String := e.link.getD ""

/-- `getattr(entry, 'summary', '') or getattr(entry, 'description', '') or None`
(line 183): first truthy value, else `None`. -/
def entrySummary (e : Entry) : Option String :=
  if e.summary.getD "" ≠ "" then e.summary
  else if e.description.getD "" ≠ "" then e.description
  else none

/-- A row of the `items` table (`init_db.py` lines 67-78); the generated UUID
`id` column is omitted, `fetched_at` is `NOT NULL DEFAULT now()`. -/
structure Item where
  feed_id : String
  title : String
  summary : Option String
  url : String
  published_at : Option Int
  category : Option String
  fetched_at : Int
deriving DecidableEq, Repr

/-- SQL `COALESCE(a, b)`. -/
def coalesce {α : Type} : Option α → Option α → Option α
  | some x, _ => some x
  | none, b => b

/-- The item upsert of `insert_items` (lines 193-211):
`INSERT INTO items ... ON CONFLICT (feed_id, url) DO UPDATE SET
 title = COALESCE(EXCLUDED.title, items.title),
 summary = COALESCE(EXCLUDED.summary, items.summary),
 published_at = COALESCE(EXCLUDED.published_at, items.published_at),
 fetched_at = now() RETURNING id, fetched_at`.
The incoming `title` is a non-null string at every call site (empty titles are
skipped first), so `COALESCE(EXCLUDED.title, items.title)` is the incoming
title.  On insert `fetched_at` takes the column default `now()`.  Returns the
updated table and the `RETURNING fetched_at` value. -/
def upsertItem (now : Int) (feed_id title : String) (summary : Option String)
    (url : String) (published_at : Option Int) : List Item → List Item × Int
  | [] =>
    ([{ feed_id := feed_id, title := title, summary := summary, url := url,
        published_at := published_at, category := none, fetched_at := now }], now)
  | it :: rest =>
    if it.feed_id == feed_id && it.url == url then
      ({ it with title := title, summary := coalesce summary it.summary,
                 published_at := coalesce published_at it.published_at,
                 fetched_at := now } :: rest, now)
    else
      let res := upsertItem now feed_id title summary url published_at rest
      (it :: res.1, res.2)

/-- Loop body of `insert_items` (lines 179-229): walk the (already truncated)
entry list, skip entries with a missing title or link, upsert the others, and
classify each write as `inserted` or `updated` by comparing the returned
`fetched_at` with `now - 1 minute` (lines 214-225; `fetched_at` is `NOT NULL`,
so the Python `if fetched_at:` truthiness test always passes).  The database
clock of `now()` and the Python `datetime.now(timezone.utc)` are one clock
here. -/
def insertItemsGo (now : Int) (feed_id : String) :
    List Entry → List Item → Nat → Nat → List Item × Nat × Nat
  | [], db, inserted, updated => (db, inserted, updated)
  | e :: es, db, inserted, updated =>
    let title := entryTitle e
    let link := entryLink e
    if title == "" || link == "" then
      insertItemsGo now feed_id es db inserted updated
    else
      let res := upsertItem now feed_id title (entrySummary e) link e.published db
      if res.2 > now - 60 then
        insertItemsGo now feed_id es res.1 (inserted + 1) updated
      else
        insertItemsGo now feed_id es res.1 inserted (updated + 1)

/-- `insert_items(db, feed_id, entries, max_items)` (lines 167-236): truncate
to `entries[:max_items]`, upsert each valid entry, return the new table and
the `inserted` counter (the `updated` counter is only printed). -/
def insert_items (db : List Item) (now : Int) (feed_id : String)
    (entries : List Entry) (max_items : Nat) : List Item × Nat :=
  let res := insertItemsGo now feed_id (entries.take max_items) db 0 0
  (res.1, res.2.1)

/-! ### The feeds table and its helpers -/

/-- A row of the `feeds` table (`init_db.py` lines 51-63). -/
structure FeedRow where
  id : String
  name : String
  url : String
  category_default : Option String
  language : Option String
  enabled : Bool
  etag : Option String
  last_modified : Option String
  last_fetched_at : Option Int
deriving DecidableEq, Repr

/-- One entry of `feeds.json`'s `feeds` list (optional keys read with `.get`). -/
structure FeedConfig where
  id : String
  name : String
  url : String
  category : Option String
  language : Option String
  enabled : Option Bool
deriving DecidableEq, Repr

/-- `upsert_feed` (lines 112-133): `INSERT INTO feeds ... ON CONFLICT (id) DO
UPDATE` of the static columns; `etag`, `last_modified`, `last_fetched_at` are
not touched on conflict and start as `NULL` on insert.  The `enabled` default
at this call is `feed_data.get("enabled", True)` (line 131). -/
def upsert_feed : List FeedRow → FeedConfig → List FeedRow
  | [], fd =>
    [{ id := fd.id, name := fd.name, url := fd.url, category_default := fd.category,
       language := fd.language, enabled := fd.enabled.getD true,
       etag := none, last_modified := none, last_fetched_at := none }]
  | r :: rs, fd =>
    if r.id == fd.id then
      { r with name := fd.name, url := fd.url, category_default := fd.category,
               language := fd.language, enabled := fd.enabled.getD true } :: rs
    else
      r :: upsert_feed rs fd

/-- `get_feed_metadata` (lines 155-164): `SELECT etag, last_modified FROM feeds
WHERE id = :feed_id`, `(None, None)` when the row is absent. -/
def get_feed_metadata (feeds : List FeedRow) (feed_id : String) :
    Option String × Option String :=
  match feeds.find? (fun r => r.id == feed_id) with
  | some r => (r.etag, r.last_modified)
  | none => (none, none)

/-- `update_feed_metadata` (lines 136-152): `UPDATE feeds SET etag, ...,
last_fetched_at = now() WHERE id = :feed_id`. -/
def update_feed_metadata (feeds : List FeedRow) (feed_id : String)
    (etag last_modified : Option String) (now : Int) : List FeedRow :=
  feeds.map (fun r =>
    if r.id == feed_id then
      { r with etag := etag, last_modified := last_modified,
               last_fetched_at := some now }
    else r)

/-! ### The fetcher `fetch_rss_feed` (lines 239-283)

The network is an oracle giving, for each attempt index, the outcome
`requests.get` would produce: a response with some status code, a
`requests.exceptions.Timeout`, or another `requests.exceptions.RequestException`. -/

/-- Outcome of one `requests.get` attempt. -/
inductive AttemptOutcome where
  | resp (status : Nat)
  | timeout
  | reqExc
deriving DecidableEq, Repr

/-- What `fetch_rss_feed` can raise. -/
inductive FetchErr where
  /-- the re-raised final `requests.exceptions.Timeout` (line 277). -/
  | timeout
  /-- `HTTPError("HTTP {status} after 3 attempts")` (lines 264-267). -/
  | httpRetriesExhausted (status : Nat)
  /-- any other `RequestException`, re-raised immediately (lines 273-275). -/
  | requestError
  /-- `RuntimeError("fetch_rss_feed: no response or exception")` (line 283). -/
  | noResponse
deriving DecidableEq, Repr

instance {ε α : Type} [DecidableEq ε] [DecidableEq α] : DecidableEq (Except ε α) :=
  fun x y =>
    match x, y with
    | .error e, .error f => decidable_of_iff (e = f) (by simp)
    | .ok a, .ok b => decidable_of_iff (a = b) (by simp)
    | .error _, .ok _ => isFalse (by simp)
    | .ok _, .error _ => isFalse (by simp)

/-- Result of running `fetch_rss_feed`: the returned status or raised error,
the number of `requests.get` calls made, and the list of back-off sleeps
(seconds) performed, in order. -/
structure FetchResult where
  result : Except FetchErr Nat
  attemptsUsed : Nat
  sleeps : List Nat
deriving DecidableEq, Repr

/-- `FETCH_RETRIES = 3` (line 35). -/
def FETCH_RETRIES : Nat := 3

/-- `response.status_code in (429, 500, 502, 503, 504)` (line 260). -/
def retryableStatus (s : Nat) : Bool :=
  s == 429 || s == 500 || s == 502 || s == 503 || s == 504

/-- The `for attempt in range(FETCH_RETRIES)` loop of `fetch_rss_feed`
(lines 255-283), with `fuel` the number of loop iterations left and the
`last_exception` / `last_response` bookkeeping made explicit.  After the loop
the code re-raises `last_exception` (only ever a final `Timeout`), else raises
an `HTTPError` from `last_response`, else a `RuntimeError`. -/
def fetchAux (oracle : Nat → AttemptOutcome) :
    Nat → Nat → Option FetchErr → Option Nat → List Nat → FetchResult
  | attempt, 0, lastExc, lastResp, sleeps =>
    match lastExc with
    | some e => { result := .error e, attemptsUsed := attempt, sleeps := sleeps }
    | none =>
      match lastResp with
      | some s => { result := .error (.httpRetriesExhausted s),
                    attemptsUsed := attempt, sleeps := sleeps }
      | none => { result := .error .noResponse, attemptsUsed := attempt,
                  sleeps := sleeps }
  | attempt, fuel + 1, lastExc, lastResp, sleeps =>
    match oracle attempt with
    | .resp s =>
      if retryableStatus s then
        if attempt < FETCH_RETRIES - 1 then
          fetchAux oracle (attempt + 1) fuel lastExc (some s) (sleeps ++ [2 ^ attempt])
        else
          { result := .error (.httpRetriesExhausted s), attemptsUsed := attempt + 1,
            sleeps := sleeps }
      else
        { result := .ok s, attemptsUsed := attempt + 1, sleeps := sleeps }
    | .timeout =>
      if attempt < FETCH_RETRIES - 1 then
        fetchAux oracle (attempt + 1) fuel (some .timeout) lastResp
          (sleeps ++ [2 ^ attempt])
      else
        fetchAux oracle (attempt + 1) fuel (some .timeout) lastResp sleeps
    | .reqExc =>
      { result := .error .requestError, attemptsUsed := attempt + 1, sleeps := sleeps }

/-- `fetch_rss_feed` run against an attempt oracle. -/
def fetch_rss_feed (oracle : Nat → AttemptOutcome) : FetchResult :=
  fetchAux oracle 0 FETCH_RETRIES none none []

/-- Is an attempt outcome one the loop retries after (timeout or a
retryable status)? -/
def isRetryable : AttemptOutcome → Bool
  | .resp s => retryableStatus s
  | .timeout => true
  | .reqExc => false

/-- How a non-retried outcome ends the call: a response is returned,
an exception is raised. -/
def immediateResult : AttemptOutcome → Except FetchErr Nat
  | .resp s => .ok s
  | .timeout => .error .timeout
  | .reqExc => .error .requestError

/-- How the outcome of the final attempt ends the call once the retry budget
is exhausted: a still-retryable status raises `HTTPError`, a timeout is
re-raised, any other outcome ends as it would immediately. -/
def exhaustedResult : AttemptOutcome → Except FetchErr Nat
  | .resp s => if retryableStatus s then .error (.httpRetriesExhausted s) else .ok s
  | .timeout => .error .timeout
  | .reqExc => .error .requestError

/-- Spec-side description of the retry policy (written from the spec's words,
to be compared with `fetch_rss_feed`): retry only after a timeout or a
429/500/502/503/504 response, at most 3 attempts in total, sleeping
`2 ^ attempt` seconds after each retried attempt; any other outcome ends the
call at once (an exception is raised, a response — any other status included —
is returned); when all 3 attempts were retryable the final failure is raised. -/
def fetchPolicySpec (o0 o1 o2 : AttemptOutcome) : FetchResult :=
  if isRetryable o0 then
    if isRetryable o1 then
      { result := exhaustedResult o2, attemptsUsed := 3, sleeps := [1, 2] }
    else
      { result := immediateResult o1, attemptsUsed := 2, sleeps := [1] }
  else
    { result := immediateResult o0, attemptsUsed := 1, sleeps := [] }

/-! ### Per-feed fetch results and phase 3 of `run_rss_ingest` -/

/-- An HTTP response as phase 3 consumes it: status code, the entry list and
bozo flag that `feedparser.parse(response.content)` yields for its body
(`bozo` means `feed.bozo and feed.bozo_exception` is truthy, lines 612-613),
and the caching headers of the response. -/
structure Response where
  status : Nat
  entries : List Entry
  bozo : Bool
  etag : Option String
  last_modified : Option String
deriving DecidableEq, Repr

/-- What `fetch_rss_feed` can raise, as seen by `fetch_feed_parallel`. -/
inductive FetchExc where
  | timeout
  | reqExc (msg : String)
deriving DecidableEq, Repr

/-- The `(response, error)` pair `fetch_feed_parallel` delivers for a feed:
exactly one of the two is set (lines 377-381). -/
inductive FetchRes where
  | fail (msg : String)
  | got (resp : Response)
deriving DecidableEq, Repr

/-- `fetch_feed_parallel` (lines 359-381): a `Timeout` becomes the error string
`"Request timeout"`, any other `RequestException` becomes its message, a
response is passed through. -/
def fetch_feed_parallel (r : Except FetchExc Response) : FetchRes :=
  match r with
  | .ok resp => .got resp
  | .error .timeout => .fail "Request timeout"
  | .error (.reqExc msg) => .fail msg

/-- A row of `feed_run_errors` (`init_db.py` lines 98-108; generated `id` and
`created_at` omitted). -/
structure ErrorRow where
  run_id : String
  feed_id : String
  error_type : String
  error_message : String
  http_status : Option Nat
deriving DecidableEq, Repr

/-- The database state phase 3 works on. -/
structure DBState where
  feeds : List FeedRow
  items : List Item
  errors : List ErrorRow
deriving DecidableEq, Repr

/-- The per-feed contribution to the run counters. -/
structure FeedCounters where
  succeeded : Nat
  failed : Nat
  inserted : Nat
deriving DecidableEq, Repr

/-- Phase-3 processing of one feed's fetch outcome (lines 558-686):
* fetch-level error: record a `feed_run_errors` row with
  `error_type = "http_error"` and `http_status = NULL`, count the feed failed;
* 304: `update_feed_metadata` with the phase-1 metadata, count succeeded;
* 200 with a bozo parse failure: record `error_type = "parse_error"` with
  `http_status = 200`, count failed;
* 200 otherwise: `insert_items`, then `update_feed_metadata` with the
  response's caching headers, count succeeded;
* any other status: record `error_type = "http_error"` with that status,
  count failed. -/
def processFeedResult (db : DBState) (now : Int) (run_id : String)
    (fd : FeedConfig) (meta : Option String × Option String) (fr : FetchRes)
    (max_items : Nat) : DBState × FeedCounters :=
  match fr with
  | .fail error =>
    ({ db with errors := db.errors ++
        [{ run_id := run_id, feed_id := fd.id, error_type := "http_error",
           error_message := error, http_status := none }] },
     { succeeded := 0, failed := 1, inserted := 0 })
  | .got resp =>
    if resp.status = 304 then
      ({ db with feeds := update_feed_metadata db.feeds fd.id meta.1 meta.2 now },
       { succeeded := 1, failed := 0, inserted := 0 })
    else if resp.status = 200 then
      if resp.bozo then
        ({ db with errors := db.errors ++
            [{ run_id := run_id, feed_id := fd.id, error_type := "parse_error",
               error_message := "RSS parse error", http_status := some 200 }] },
         { succeeded := 0, failed := 1, inserted := 0 })
      else
        let res := insert_items db.items now fd.id resp.entries max_items
        ({ db with items := res.1,
                   feeds := update_feed_metadata db.feeds fd.id resp.etag
                     resp.last_modified now },
         { succeeded := 1, failed := 0, inserted := res.2 })
    else
      ({ db with errors := db.errors ++
          [{ run_id := run_id, feed_id := fd.id, error_type := "http_error",
             error_message := "HTTP error status", http_status := some resp.status }] },
       { succeeded := 0, failed := 1, inserted := 0 })

/-- Phase 3 over all enabled feeds in registry order (lines 557-688), with the
phase-1 metadata map and the fetch results keyed by feed id: process the first
feed against the current database state, recurse over the remaining feeds, and
total the per-feed counter contributions. -/
def runPhase3 (now : Int) (run_id : String)
    (meta : String → Option String × Option String) (results : String → FetchRes)
    (max_items : Nat) : DBState → List FeedConfig → DBState × FeedCounters
  | db, [] => (db, { succeeded := 0, failed := 0, inserted := 0 })
  | db, fd :: rest =>
    let res := processFeedResult db now run_id fd (meta fd.id) (results fd.id)
      max_items
    let r2 := runPhase3 now run_id meta results max_items res.1 rest
    (r2.1,
     { succeeded := res.2.succeeded + r2.2.succeeded,
       failed := res.2.failed + r2.2.failed,
       inserted := res.2.inserted + r2.2.inserted })

/-- `status = "success" if feeds_failed == 0 else "partial"` (line 697). -/
def runStatus (feeds_failed : Nat) : String :=
  if feeds_failed = 0 then "success" else "partial"

/-- `[f for f in feeds if f.get("enabled", defaults.get("enabled", True))]`
(line 492). -/
def enabledFeeds (defaults_enabled : Option Bool) (feeds : List FeedConfig) :
    List FeedConfig :=
  feeds.filter (fun f => f.enabled.getD (defaults_enabled.getD true))

/-- The summary fields of the finalized run record (lines 697-742) that the
claims speak about. -/
structure RunSummary where
  status : String
  total_feeds : Nat
  feeds_succeeded : Nat
  feeds_failed : Nat
  items_inserted : Nat
deriving DecidableEq, Repr

/-- `run_rss_ingest` (lines 469-742), restricted to the phases the claims are
about: filter the enabled feeds, phase 1 (upsert every enabled feed's row and
read back its conditional-fetch metadata), phase 3 over the supplied fetch
results, and the finalized counters and status. -/
def run_rss_ingest (db : DBState) (now : Int) (run_id : String)
    (defaults_enabled : Option Bool) (feeds : List FeedConfig)
    (results : String → FetchRes) (max_items : Nat) : DBState × RunSummary :=
  let enabled := enabledFeeds defaults_enabled feeds
  let feeds1 := enabled.foldl upsert_feed db.feeds
  let db1 : DBState := { db with feeds := feeds1 }
  let res := runPhase3 now run_id (get_feed_metadata feeds1) results max_items db1
    enabled
  (res.1,
   { status := runStatus res.2.failed, total_feeds := enabled.length,
     feeds_succeeded := res.2.succeeded, feeds_failed := res.2.failed,
     items_inserted := res.2.inserted })

/-- Does phase 3 count this fetch outcome as a failed feed? -/
def outcomeFailed : FetchRes → Bool
  | .fail _ => true
  | .got resp =>
    if resp.status = 304 then false
    else if resp.status = 200 then resp.bozo
    else true

/-! ### The retention sweeper `cleanup_old_data` (lines 286-356) -/

/-- `ITEMS_RETENTION_DAYS = 7` (line 83). -/
def ITEMS_RETENTION_DAYS : Int := 7
/-- `RUNS_RETENTION_DAYS = 30` (line 84). -/
def RUNS_RETENTION_DAYS : Int := 30
/-- `ERRORS_RETENTION_DAYS = 30` (line 85). -/
def ERRORS_RETENTION_DAYS : Int := 30

/-- The four tables the sweeper touches, each reduced to the timestamp column
its `DELETE ... WHERE <ts> < now() - INTERVAL` filters on; `none` models a
table that does not exist yet (its `DELETE` raises). -/
structure RetentionDB where
  itemsTable : Option (List Int)
  errorsTable : Option (List Int)
  runsTable : Option (List Int)
  rateLimitsTable : Option (List Int)
deriving DecidableEq, Repr

/-- `DELETE FROM t WHERE ts < cutoff RETURNING id` against an optional table:
an absent table raises, otherwise the surviving rows and the deleted count are
returned. -/
def deleteOlder (table : Option (List Int)) (cutoff : Int) :
    Except String (List Int × Nat) :=
  match table with
  | none => .error "relation does not exist"
  | some rows =>
    .ok (rows.filter (fun t => !(decide (t < cutoff))),
         (rows.filter (fun t => decide (t < cutoff))).length)

/-- The `deleted` counter dict of `cleanup_old_data`. -/
structure CleanupCounts where
  items : Nat
  runs : Nat
  feed_run_errors : Nat
  rate_limits : Nat
deriving DecidableEq, Repr

/-- `cleanup_old_data` (lines 286-356): one `with engine.begin()` transaction
against PostgreSQL — no savepoints — deletes old `items`, then
`feed_run_errors`, then `runs`, then — wrapped in its own `try/except`
(lines 335-346) — old `rate_limits` rows.  A failure of any of the first
three deletions propagates out of the block: the transaction rolls back and
nothing is deleted (modelled by `.error` with no new state).  A failure of
the `rate_limits` deletion is caught by the `try/except`, but the failed
statement has already put the shared transaction into PostgreSQL's aborted
state, so the commit at block exit persists nothing: the `items`,
`feed_run_errors` and `runs` deletions are rolled back as well, while the
`deleted` dict — populated from the earlier `RETURNING` row counts before the
abort — is still returned with `rate_limits = 0`.  (Should the driver layer
instead raise a pending-rollback error at the commit, the caller's
`try/except` at lines 721-727 swallows it; the persisted state is unchanged
either way.)  Only when all four deletions succeed does the commit make them
effective. -/
def cleanup_old_data (db : RetentionDB) (now : Int) :
    Except String (RetentionDB × CleanupCounts) :=
  match deleteOlder db.itemsTable (now - ITEMS_RETENTION_DAYS * 86400) with
  | .error e => .error e
  | .ok (its, ci) =>
    match deleteOlder db.errorsTable (now - ERRORS_RETENTION_DAYS * 86400) with
    | .error e => .error e
    | .ok (ers, ce) =>
      match deleteOlder db.runsTable (now - RUNS_RETENTION_DAYS * 86400) with
      | .error e => .error e
      | .ok (rns, cr) =>
        match deleteOlder db.rateLimitsTable (now - 3600) with
        | .error _ =>
          .ok (db,
               { items := ci, runs := cr, feed_run_errors := ce, rate_limits := 0 })
        | .ok (rls, crl) =>
          .ok ({ itemsTable := some its, errorsTable := some ers,
                 runsTable := some rns, rateLimitsTable := some rls },
               { items := ci, runs := cr, feed_run_errors := ce, rate_limits := crl })

/-! ### Effective fetch timeout (claim C10) -/

/-- `FETCH_TIMEOUT = 5` (line 34). -/
def FETCH_TIMEOUT : Nat := 5

/-- `timeout = min(defaults.get("timeoutSeconds", FETCH_TIMEOUT), FETCH_TIMEOUT)`
(line 488). -/
def effectiveTimeout (timeoutSeconds : Option Nat) : Nat :=
  min (timeoutSeconds.getD FETCH_TIMEOUT) FETCH_TIMEOUT

/-! ### The content of an item row, with `fetched_at` stripped

Claims C6 and C9 speak about the item store up to freshness timestamps; we
project rows onto their content part and re-express `insert_items` as a fold
of content-level upserts over the valid candidate writes. -/

/-- An item row without its `fetched_at` column. -/
structure ItemCore where
  feed_id : String
  title : String
  summary : Option String
  url : String
  published_at : Option Int
  category : Option String
deriving DecidableEq, Repr

/-- Strip `fetched_at` from a row. -/
def Item.core (it : Item) : ItemCore :=
  { feed_id := it.feed_id, title := it.title, summary := it.summary,
    url := it.url, published_at := it.published_at, category := it.category }

/-- The values one item upsert carries. -/
structure Write where
  feed_id : String
  title : String
  summary : Option String
  url : String
  published_at : Option Int
deriving DecidableEq, Repr

/-- The deduplication key `(feed_id, url)` of a write. -/
def Write.key (w : Write) : String × String := (w.feed_id, w.url)

/-- The deduplication key `(feed_id, url)` of a row. -/
def ItemCore.key (r : ItemCore) : String × String := (r.feed_id, r.url)

/-- Does `insert_items` keep this entry (non-empty title and link)? -/
def entryValid (e : Entry) : Bool :=
  !(entryTitle e == "") && !(entryLink e == "")

/-- The write an entry turns into. -/
def entryWrite (feed_id : String) (e : Entry) : Write :=
  { feed_id := feed_id, title := entryTitle e, summary := entrySummary e,
    url := entryLink e, published_at := e.published }

/-- The sequence of upserts one `insert_items(db, feed_id, entries, max_items)`
call performs: the valid entries among `entries[:max_items]`, in source order. -/
def writesOf (feed_id : String) (entries : List Entry) (max_items : Nat) :
    List Write :=
  ((entries.take max_items).filter entryValid).map (entryWrite feed_id)

/-- Content-level effect of the upsert's conflict branch on the hit row. -/
def applyUpdate (w : Write) (r : ItemCore) : ItemCore :=
  { r with title := w.title, summary := coalesce w.summary r.summary,
           published_at := coalesce w.published_at r.published_at }

/-- Content-level effect of the upsert's insert branch. -/
def insertRow (w : Write) : ItemCore :=
  { feed_id := w.feed_id, title := w.title, summary := w.summary,
    url := w.url, published_at := w.published_at, category := none }

/-- One upsert at the content level. -/
def coreUpsert (w : Write) : List ItemCore → List ItemCore
  | [] => [insertRow w]
  | r :: rs => if r.key = w.key then applyUpdate w r :: rs else r :: coreUpsert w rs

/-- A sequence of upserts at the content level. -/
def coreSteps (s : List ItemCore) (ws : List Write) : List ItemCore :=
  ws.foldl (fun acc w => coreUpsert w acc) s

/-- Is a row with key `k` present? -/
def hasKey (s : List ItemCore) (k : String × String) : Bool :=
  s.any (fun r => r.key == k)

/-- The first row carrying key `k`. -/
def rowAt (k : String × String) (s : List ItemCore) : Option ItemCore :=
  s.find? (fun r => r.key == k)

/-- Effect of one upsert on an optional row. -/
def applyW (w : Write) : Option ItemCore → ItemCore
  | some r => applyUpdate w r
  | none => insertRow w

/-- Effect of a sequence of same-key upserts on an optional row. -/
def foldApplied (ws : List Write) (r : Option ItemCore) : Option ItemCore :=
  ws.foldl (fun a w => some (applyW w a)) r

/-- Overwrite composition of two same-key writes: `u.comp w` is "`w`, then
`u`" collapsed into one write. -/
def Write.comp (u w : Write) : Write :=
  { u with summary := coalesce u.summary w.summary,
           published_at := coalesce u.published_at w.published_at }

/-- Collapse a non-empty same-key write sequence (base write `w`, then the
writes of `us` in order) into a single write. -/
def compFold (w : Write) : List Write → Write
  | [] => w
  | u :: us => compFold (u.comp w) us

/-- Apply to a row every write of `ws` whose key is the row's own key. -/
def rowFold (ws : List Write) (r : ItemCore) : ItemCore :=
  (ws.filter (fun w => w.key == r.key)).foldl (fun x w => applyUpdate w x) r

/-! ### Concrete fixtures used by witnesses and counterexamples -/

/-- A concrete feed configuration. -/
def feedA : FeedConfig :=
  { id := "feed-a", name := "Feed A", url := "http://a.example/rss",
    category := none, language := none, enabled := none }

/-- An empty database state. -/
def emptyDB : DBState := { feeds := [], items := [], errors := [] }

/-- A concrete `feeds` row for `feedA` with stored caching metadata. -/
def rowA : FeedRow :=
  { id := "feed-a", name := "Feed A", url := "http://a.example/rss",
    category_default := none, language := none, enabled := true,
    etag := some "W-etag", last_modified := some "Mon, 01 Jan 2024 00:00:00 GMT",
    last_fetched_at := some 100 }

/-- A concrete `304 Not Modified` response. -/
def resp304 : Response :=
  { status := 304, entries := [], bozo := false, etag := none, last_modified := none }

/-- Concrete valid entries with pairwise distinct links. -/
def entryE1 : Entry :=
  { title := some "Title 1", link := some "http://a.example/1",
    summary := some "S1", description := none, published := some 10 }

/-- Second concrete entry. -/
def entryE2 : Entry :=
  { title := some "Title 2", link := some "http://a.example/2",
    summary := none, description := none, published := none }

/-- Third concrete entry. -/
def entryE3 : Entry :=
  { title := some "Title 3", link := some "http://a.example/3",
    summary := none, description := some "D3", published := none }

/-- Fourth concrete entry. -/
def entryE4 : Entry :=
  { title := some "Title 4", link := some "http://a.example/4",
    summary := none, description := none, published := some 44 }

end RssIngest

namespace RssIngest

/-! ## Theorems -/

/-- Claim C10 (confirmed): the effective per-feed fetch timeout of a run is
`min(defaults.timeoutSeconds, FETCH_TIMEOUT)` with `FETCH_TIMEOUT = 5`:
configuration can lower it below 5 seconds but can never raise it above 5. -/
theorem claim_C10 (t : Nat) :
    effectiveTimeout none = 5 ∧
    effectiveTimeout (some t) = min t 5 ∧
    effectiveTimeout (some t) ≤ 5 ∧
    (t ≤ 5 → effectiveTimeout (some t) = t) ∧
    (5 < t → effectiveTimeout (some t) = 5) := by
  refine ⟨rfl, rfl, Nat.min_le_right t 5, fun h => Nat.min_eq_left h,
    fun h => Nat.min_eq_right (Nat.le_of_lt h)⟩

/-- Witness for C10: a configured 7-second timeout is clamped to 5 seconds. -/
theorem claim_C10_witness : 5 < 7 ∧ effectiveTimeout (some 7) = 5 :=
  ⟨by decide, (claim_C10 7).2.2.2.2 (by decide)⟩

/-- Claim C5 (confirmed): an item upsert keyed on `(feed_id, url)` creates,
when the key is absent, a new row with all supplied fields and
`fetched_at = now`; when the key hits an existing row it updates `title`,
`summary` and `published_at` only where the incoming value is non-null
(preserving the stored value otherwise — the incoming `title` is always
non-null at the call sites) and sets `fetched_at = now` unconditionally,
leaving every other row untouched. -/
theorem claim_C5 (now : Int) (fid t : String) (s : Option String) (url : String)
    (p : Option Int) (db : List Item) :
    ((∀ it ∈ db, ¬(it.feed_id = fid ∧ it.url = url)) →
      upsertItem now fid t s url p db =
        (db ++ [{ feed_id := fid, title := t, summary := s, url := url,
                  published_at := p, category := none, fetched_at := now }], now)) ∧
    (∀ pre r post, db = pre ++ r :: post →
      (∀ it ∈ pre, ¬(it.feed_id = fid ∧ it.url = url)) →
      r.feed_id = fid → r.url = url →
      upsertItem now fid t s url p db =
        (pre ++ { r with title := t, summary := coalesce s r.summary,
                         published_at := coalesce p r.published_at,
                         fetched_at := now } :: post, now)) := by
  constructor
  · intro h
    induction db with
    | nil => rfl
    | cons it rest ih =>
      have hit := h it (List.mem_cons_self it rest)
      have hcond : (it.feed_id == fid && it.url == url) = false := by
        by_cases h1 : it.feed_id = fid
        · by_cases h2 : it.url = url
          · exact absurd ⟨h1, h2⟩ hit
          · simp [h1, h2]
        · simp [h1]
      have ih2 := ih (fun x hx => h x (List.mem_cons_of_mem _ hx))
      simp [upsertItem, hcond, ih2]
  · intro pre r post hdb hpre h1 h2
    subst hdb
    induction pre with
    | nil =>
      have hcond : (r.feed_id == fid && r.url == url) = true := by simp [h1, h2]
      simp [upsertItem, hcond]
    | cons q pre ih =>
      have hq := hpre q (List.mem_cons_self _ _)
      have hcond : (q.feed_id == fid && q.url == url) = false := by
        by_cases hq1 : q.feed_id = fid
        · by_cases hq2 : q.url = url
          · exact absurd ⟨hq1, hq2⟩ hq
          · simp [hq1, hq2]
        · simp [hq1]
      have ih2 := ih (fun x hx => hpre x (List.mem_cons_of_mem _ hx))
      simp [upsertItem, hcond, ih2]

/-- Witness for C5: a conflict on a stored row keeps the stored
`published_at` (incoming null), overwrites `title` and `summary` (incoming
non-null), and advances `fetched_at`. -/
theorem claim_C5_witness :
    upsertItem 100 "f" "t2" (some "s2") "u" none
        [{ feed_id := "f", title := "t1", summary := none, url := "u",
           published_at := some 5, category := none, fetched_at := 50 }] =
      ([{ feed_id := "f", title := "t2", summary := some "s2", url := "u",
          published_at := some 5, category := none, fetched_at := 100 }], 100) := by
  have h := (claim_C5 100 "f" "t2" (some "s2") "u" none
      [{ feed_id := "f", title := "t1", summary := none, url := "u",
         published_at := some 5, category := none, fetched_at := 50 }]).2
    [] { feed_id := "f", title := "t1", summary := none, url := "u",
         published_at := some 5, category := none, fetched_at := 50 } []
    rfl (by simp) rfl rfl
  simpa [coalesce] using h

/-- Counterexample to claim C1 as stated: a feed whose fetch fails with a
network timeout is recorded with `error_type = "http_error"`, not
`"timeout"` — phase 3 of `run_rss_ingest` hard-codes `"http_error"` for every
fetch-level failure. -/
theorem claim_C1_counterexample :
    ((processFeedResult emptyDB 0 "run-1" feedA (none, none)
        (fetch_feed_parallel (.error .timeout)) 3).1.errors.map ErrorRow.error_type
      = ["http_error"]) ∧ "http_error" ≠ "timeout" := by
  constructor
  · rfl
  · decide

/-- Claim C1 amended (proved): every fetch-level failure of a feed — a network
timeout included — is recorded as a `FeedRunError` row with
`error_type = "http_error"` and `http_status = NULL`; the timeout case is
distinguishable only through its `error_message` `"Request timeout"`.  The
feed is counted failed and no item or feed row changes. -/
theorem claim_C1_amended (db : DBState) (now : Int) (run_id : String)
    (fd : FeedConfig) (meta : Option String × Option String) (exc : FetchExc)
    (max_items : Nat) :
    (processFeedResult db now run_id fd meta (fetch_feed_parallel (.error exc))
        max_items).1.errors =
      db.errors ++
        [{ run_id := run_id, feed_id := fd.id, error_type := "http_error",
           error_message := match exc with
             | .timeout => "Request timeout"
             | .reqExc m => m,
           http_status := none }] ∧
    (processFeedResult db now run_id fd meta (fetch_feed_parallel (.error exc))
        max_items).2 = { succeeded := 0, failed := 1, inserted := 0 } ∧
    (processFeedResult db now run_id fd meta (fetch_feed_parallel (.error exc))
        max_items).1.items = db.items ∧
    (processFeedResult db now run_id fd meta (fetch_feed_parallel (.error exc))
        max_items).1.feeds = db.feeds := by
  cases exc <;> simp [processFeedResult, fetch_feed_parallel]

/-- Counterexample to claim C3 as stated: with the `items` table missing,
`cleanup_old_data` raises (so the `runs` deletion never runs) even though the
`runs` deletion alone would have succeeded and deleted one expired row — the
four deletion categories are not all independent. -/
theorem claim_C3_counterexample :
    cleanup_old_data
        { itemsTable := none, errorsTable := some [0], runsTable := some [0],
          rateLimitsTable := some [0] } 1000000000
      = .error "relation does not exist" ∧
    deleteOlder (some [0]) (1000000000 - RUNS_RETENTION_DAYS * 86400)
      = .ok ([], 1) := by
  constructor
  · rfl
  · rfl

/-- Claim C3 amended (proved): no deletion category of the sweeper is
independent — all four `DELETE`s share one transaction.  A failure of the
`items` deletion (a missing table) aborts the whole cleanup with nothing
deleted; a failure of the `rate_limits` deletion is caught, but it has
already aborted the shared transaction, so the commit persists nothing — the
`items`, `feed_run_errors` and `runs` deletions are rolled back as well,
though their counts are still reported (with `rate_limits = 0`).  Only when
all four tables exist do all four deletions take effect. -/
theorem claim_C3_amended (db : RetentionDB) (now : Int) :
    (db.itemsTable = none →
      cleanup_old_data db now = .error "relation does not exist") ∧
    (∀ its ers rns, db.itemsTable = some its → db.errorsTable = some ers →
      db.runsTable = some rns → db.rateLimitsTable = none →
      cleanup_old_data db now = .ok
        (db,
         { items := (its.filter
              (fun x => decide (x < now - ITEMS_RETENTION_DAYS * 86400))).length,
           runs := (rns.filter
              (fun x => decide (x < now - RUNS_RETENTION_DAYS * 86400))).length,
           feed_run_errors := (ers.filter
              (fun x => decide (x < now - ERRORS_RETENTION_DAYS * 86400))).length,
           rate_limits := 0 })) ∧
    (∀ its ers rns rls, db.itemsTable = some its → db.errorsTable = some ers →
      db.runsTable = some rns → db.rateLimitsTable = some rls →
      cleanup_old_data db now = .ok
        ({ itemsTable := some (its.filter
              (fun x => !(decide (x < now - ITEMS_RETENTION_DAYS * 86400)))),
           errorsTable := some (ers.filter
              (fun x => !(decide (x < now - ERRORS_RETENTION_DAYS * 86400)))),
           runsTable := some (rns.filter
              (fun x => !(decide (x < now - RUNS_RETENTION_DAYS * 86400)))),
           rateLimitsTable := some (rls.filter
              (fun x => !(decide (x < now - 3600)))) },
         { items := (its.filter
              (fun x => decide (x < now - ITEMS_RETENTION_DAYS * 86400))).length,
           runs := (rns.filter
              (fun x => decide (x < now - RUNS_RETENTION_DAYS * 86400))).length,
           feed_run_errors := (ers.filter
              (fun x => decide (x < now - ERRORS_RETENTION_DAYS * 86400))).length,
           rate_limits := (rls.filter
              (fun x => decide (x < now - 3600))).length })) := by
  refine ⟨?_, ?_, ?_⟩
  · intro h
    simp [cleanup_old_data, deleteOlder, h]
  · intro its ers rns hi he hr hrl
    simp [cleanup_old_data, deleteOlder, hi, he, hr, hrl]
  · intro its ers rns rls hi he hr hrl
    simp [cleanup_old_data, deleteOlder, hi, he, hr, hrl]

/-- Witness for C3 amended: a concrete cleanup with the `rate_limits` table
missing reports the counts of the expired `items`, `feed_run_errors` and
`runs` rows but persists none of the deletions — the table states are the
original ones. -/
theorem claim_C3_witness :
    cleanup_old_data
        { itemsTable := some [0, 999999999], errorsTable := some [5],
          runsTable := some [3], rateLimitsTable := none } 1000000000
      = .ok ({ itemsTable := some [0, 999999999], errorsTable := some [5],
               runsTable := some [3], rateLimitsTable := none },
             { items := 1, runs := 1, feed_run_errors := 1, rate_limits := 0 }) := by
  have h := (claim_C3_amended
      { itemsTable := some [0, 999999999], errorsTable := some [5],
        runsTable := some [3], rateLimitsTable := none } 1000000000).2.1
    [0, 999999999] [5] [3] rfl rfl rfl rfl
  exact h.trans (by decide)

/-- The `RETURNING fetched_at` value of an item upsert is always the write
time `now`: the insert branch takes the column default `now()`, and the
conflict branch has just set `fetched_at = now()`. -/
theorem upsertItem_ret (now : Int) (fid t : String) (s : Option String)
    (url : String) (p : Option Int) (db : List Item) :
    (upsertItem now fid t s url p db).2 = now := by
  induction db with
  | nil => rfl
  | cons it rest ih =>
    simp only [upsertItem]
    split
    · rfl
    · simpa using ih

/-- The `inserted` counter of the `insert_items` loop grows by one for every
valid entry processed, whatever the database already contains: the returned
`fetched_at` is always `now`, which always lies inside the `now - 1 minute`
recency window. -/
theorem insertItemsGo_count (now : Int) (fid : String) (es : List Entry) :
    ∀ (db : List Item) (ins upd : Nat),
      (insertItemsGo now fid es db ins upd).2.1 = ins + es.countP entryValid := by
  induction es with
  | nil => intro db ins upd; simp [insertItemsGo]
  | cons e es ih =>
    intro db ins upd
    by_cases hv : (entryTitle e == "" || entryLink e == "") = true
    · have hval : entryValid e = false := by
        simp only [entryValid]
        rcases Bool.or_eq_true_iff.mp hv with h | h <;> simp [h]
      simp [insertItemsGo, hv, ih, List.countP_cons, hval]
    · have hval : entryValid e = true := by
        simp only [Bool.or_eq_true_iff, not_or] at hv
        simp [entryValid, Bool.not_eq_true (entryTitle e == ""),
          Bool.not_eq_true (entryLink e == ""), hv.1, hv.2]
      have hret := upsertItem_ret now fid (entryTitle e) (entrySummary e)
        (entryLink e) e.published db
      have hwin : ((upsertItem now fid (entryTitle e) (entrySummary e)
          (entryLink e) e.published db).2 > now - 60) := by
        rw [hret]; omega
      simp [insertItemsGo, hv, hwin, ih, List.countP_cons, hval]
      omega

/-- Counterexample to claim C2 as stated: writing a candidate whose
`(feed_id, url)` key already exists in the store is a pure conflict-update
(the store length stays 1, no fresh insert happens), yet `insert_items`
returns a count of 1 — the conflict branch also sets `fetched_at = now()`,
so the 60-second recency test classifies the refresh as an insert. -/
theorem claim_C2_counterexample :
    (insert_items
        [{ feed_id := "f", title := "old", summary := none, url := "u",
           published_at := none, category := none, fetched_at := 0 }]
        1000 "f"
        [{ title := some "t", link := some "u", summary := none,
           description := none, published := none }] 5).2 = 1 ∧
    (insert_items
        [{ feed_id := "f", title := "old", summary := none, url := "u",
           published_at := none, category := none, fetched_at := 0 }]
        1000 "f"
        [{ title := some "t", link := some "u", summary := none,
           description := none, published := none }] 5).1.length = 1 := by
  constructor
  · rfl
  · rfl

/-- Claim C2 amended (proved): `insert_items` does classify each write by
comparing the returned `fetched_at` against the 60-second recency window, but
because both the insert branch and the conflict branch set
`fetched_at = now()`, the comparison holds for every write: the returned
count equals the number of valid candidates written — fresh inserts and
conflict-updates of pre-existing rows alike. -/
theorem claim_C2_amended (db : List Item) (now : Int) (fid : String)
    (entries : List Entry) (max_items : Nat) :
    (insert_items db now fid entries max_items).2 =
      (entries.take max_items).countP entryValid := by
  simp [insert_items, insertItemsGo_count]

/-- Phase 3 counts a feed as succeeded exactly when its fetch outcome is not
a failing one (`outcomeFailed`), and as failed exactly otherwise. -/
theorem processFeedResult_counters (db : DBState) (now : Int) (run_id : String)
    (fd : FeedConfig) (meta : Option String × Option String) (fr : FetchRes)
    (max_items : Nat) :
    (processFeedResult db now run_id fd meta fr max_items).2.succeeded =
      (if outcomeFailed fr then 0 else 1) ∧
    (processFeedResult db now run_id fd meta fr max_items).2.failed =
      (if outcomeFailed fr then 1 else 0) := by
  cases fr with
  | fail msg => simp [processFeedResult, outcomeFailed]
  | got resp =>
    by_cases h304 : resp.status = 304
    · simp [processFeedResult, outcomeFailed, h304]
    · by_cases h200 : resp.status = 200
      · cases hb : resp.bozo <;>
          simp [processFeedResult, outcomeFailed, h304, h200, hb]
      · simp [processFeedResult, outcomeFailed, h304, h200]

/-- Counting the elements satisfying a predicate and those refuting it covers
a list exactly once. -/
theorem countP_not_add {α : Type} (p : α → Bool) (l : List α) :
    l.countP (fun a => !(p a)) + l.countP p = l.length := by
  induction l with
  | nil => rfl
  | cons a l ih =>
    cases h : p a <;> simp [List.countP_cons, h] <;> omega

/-- Per-run totals of phase 3: the failed count is the number of feeds with a
failing outcome, the succeeded count the number of the others. -/
theorem runPhase3_counters (now : Int) (run_id : String)
    (meta : String → Option String × Option String) (results : String → FetchRes)
    (max_items : Nat) (feeds : List FeedConfig) :
    ∀ db : DBState,
      (runPhase3 now run_id meta results max_items db feeds).2.failed =
        feeds.countP (fun fd => outcomeFailed (results fd.id)) ∧
      (runPhase3 now run_id meta results max_items db feeds).2.succeeded =
        feeds.countP (fun fd => !(outcomeFailed (results fd.id))) := by
  induction feeds with
  | nil => intro db; simp [runPhase3]
  | cons fd rest ih =>
    intro db
    have hc := processFeedResult_counters db now run_id fd (meta fd.id)
      (results fd.id) max_items
    have ihr := ih (processFeedResult db now run_id fd (meta fd.id)
      (results fd.id) max_items).1
    cases hf : outcomeFailed (results fd.id) <;>
      simp [runPhase3, hc.1, hc.2, ihr.1, ihr.2, List.countP_cons, hf] <;>
      omega

/-- Claim C4 (confirmed): in a finalized run each enabled feed is counted
exactly once as succeeded or failed, so
`feeds_succeeded + feeds_failed = total_feeds`; `feeds_failed` is exactly the
number of enabled feeds with a failing fetch outcome, and the finalized
status is `"success"` when `feeds_failed = 0` and `"partial"` otherwise (so N
feeds of which exactly one fails yield `N-1` succeeded, `1` failed, status
`"partial"`). -/
theorem claim_C4 (db : DBState) (now : Int) (run_id : String)
    (defaults_enabled : Option Bool) (feeds : List FeedConfig)
    (results : String → FetchRes) (max_items : Nat) :
    (run_rss_ingest db now run_id defaults_enabled feeds results
        max_items).2.feeds_succeeded +
      (run_rss_ingest db now run_id defaults_enabled feeds results
        max_items).2.feeds_failed =
      (run_rss_ingest db now run_id defaults_enabled feeds results
        max_items).2.total_feeds ∧
    (run_rss_ingest db now run_id defaults_enabled feeds results
        max_items).2.feeds_failed =
      (enabledFeeds defaults_enabled feeds).countP
        (fun fd => outcomeFailed (results fd.id)) ∧
    (run_rss_ingest db now run_id defaults_enabled feeds results
        max_items).2.status =
      (if (run_rss_ingest db now run_id defaults_enabled feeds results
          max_items).2.feeds_failed = 0 then "success" else "partial") := by
  obtain ⟨h1, h2⟩ := runPhase3_counters now run_id
    (get_feed_metadata (List.foldl upsert_feed db.feeds
      (enabledFeeds defaults_enabled feeds)))
    results max_items (enabledFeeds defaults_enabled feeds)
    { db with feeds := (List.foldl upsert_feed db.feeds
        (enabledFeeds defaults_enabled feeds)) }
  refine ⟨?_, h1, rfl⟩
  show (runPhase3 now run_id
      (get_feed_metadata (List.foldl upsert_feed db.feeds
        (enabledFeeds defaults_enabled feeds)))
      results max_items
      { db with feeds := (List.foldl upsert_feed db.feeds
          (enabledFeeds defaults_enabled feeds)) }
      (enabledFeeds defaults_enabled feeds)).2.succeeded +
    (runPhase3 now run_id
      (get_feed_metadata (List.foldl upsert_feed db.feeds
        (enabledFeeds defaults_enabled feeds)))
      results max_items
      { db with feeds := (List.foldl upsert_feed db.feeds
          (enabledFeeds defaults_enabled feeds)) }
      (enabledFeeds defaults_enabled feeds)).2.failed =
    (enabledFeeds defaults_enabled feeds).length
  rw [h1, h2]
  exact countP_not_add (fun fd => outcomeFailed (results fd.id))
    (enabledFeeds defaults_enabled feeds)

/-- Claim C8 (confirmed): when a feed's fetch returns `304 Not Modified` and
the metadata handed to phase 3 is the feed row's stored `etag` /
`last_modified` (which is what phase 1 read back), processing that feed writes
no item row, records no error, rewrites only its own feed row with its stored
metadata values — so the only field whose value changes is
`last_fetched_at` — and counts the feed as succeeded. -/
theorem claim_C8 (db : DBState) (now : Int) (run_id : String) (fd : FeedConfig)
    (meta : Option String × Option String) (resp : Response) (max_items : Nat)
    (hmeta : ∀ r ∈ db.feeds, r.id = fd.id →
      r.etag = meta.1 ∧ r.last_modified = meta.2)
    (h304 : resp.status = 304) :
    (processFeedResult db now run_id fd meta (.got resp) max_items).1.items
      = db.items ∧
    (processFeedResult db now run_id fd meta (.got resp) max_items).1.errors
      = db.errors ∧
    (processFeedResult db now run_id fd meta (.got resp) max_items).1.feeds
      = db.feeds.map (fun r =>
          if r.id = fd.id then { r with last_fetched_at := some now } else r) ∧
    (processFeedResult db now run_id fd meta (.got resp) max_items).2
      = { succeeded := 1, failed := 0, inserted := 0 } := by
  refine ⟨by simp [processFeedResult, h304], by simp [processFeedResult, h304],
    ?_, by simp [processFeedResult, h304]⟩
  simp only [processFeedResult, h304, if_pos]
  show update_feed_metadata db.feeds fd.id meta.1 meta.2 now = _
  unfold update_feed_metadata
  apply List.map_congr_left
  intro r hr
  by_cases hid : r.id = fd.id
  · obtain ⟨he, hl⟩ := hmeta r hr hid
    rw [← he, ← hl]
    simp [hid]
  · simp [hid]

/-- Witness for C8: a concrete 304 outcome against a stored feed row leaves
items and errors alone, advances only `last_fetched_at`, and counts the feed
succeeded. -/
theorem claim_C8_witness :
    (processFeedResult { feeds := [rowA], items := [], errors := [] } 500 "run-1"
        feedA (rowA.etag, rowA.last_modified) (.got resp304) 3).1.feeds
      = [{ rowA with last_fetched_at := some 500 }] ∧
    (processFeedResult { feeds := [rowA], items := [], errors := [] } 500 "run-1"
        feedA (rowA.etag, rowA.last_modified) (.got resp304) 3).2
      = { succeeded := 1, failed := 0, inserted := 0 } := by
  have h := claim_C8 { feeds := [rowA], items := [], errors := [] } 500 "run-1"
    feedA (rowA.etag, rowA.last_modified) resp304 3
    (by decide) rfl
  refine ⟨h.2.2.1.trans ?_, h.2.2.2⟩
  decide

/-- Counterexample to claim C7 as stated: an HTTP 404 — a non-retryable,
non-timeout request failure — is not raised by the fetcher at all: the first
attempt returns the 404 response (result `.ok 404`, one attempt, no retry, no
sleep); the caller, not the fetcher, later records it as an error. -/
theorem claim_C7_counterexample :
    fetch_rss_feed (fun _ => .resp 404)
      = { result := .ok 404, attemptsUsed := 1, sleeps := [] } := by
  rfl

/-- Claim C7 amended (proved): `fetch_rss_feed` implements exactly this
policy — retry only after a network timeout or an HTTP 429/500/502/503/504,
for at most `FETCH_RETRIES = 3` total attempts, sleeping `2 ^ attempt` seconds
after each retried attempt; any other outcome ends the call immediately
without retry (a connection-level `RequestException` is raised, a response
with any other status — other 4xx included — is returned rather than raised);
when every attempt was retryable, the final attempt's failure is raised
(`Timeout`, or `HTTPError` for a final retryable status). -/
theorem claim_C7_amended (oracle : Nat → AttemptOutcome) :
    fetch_rss_feed oracle = fetchPolicySpec (oracle 0) (oracle 1) (oracle 2) := by
  rcases h0 : oracle 0 with s0 | _ | _ <;>
    rcases h1 : oracle 1 with s1 | _ | _ <;>
      rcases h2 : oracle 2 with s2 | _ | _ <;>
        simp [fetch_rss_feed, fetchAux, FETCH_RETRIES, fetchPolicySpec,
          isRetryable, immediateResult, exhaustedResult, h0, h1, h2] <;>
        split_ifs <;> rfl

/-! ### Content-level characterization of the item store (for C6 and C9) -/

/-- The inserted row carries the write's key. -/
theorem insertRow_key (w : Write) : (insertRow w).key = w.key := rfl

/-- The conflict update leaves the row's key unchanged. -/
theorem applyUpdate_key (w : Write) (r : ItemCore) :
    (applyUpdate w r).key = r.key := rfl

/-- `COALESCE` is associative. -/
theorem coalesce_assoc {α : Type} (a b c : Option α) :
    coalesce (coalesce a b) c = coalesce a (coalesce b c) := by
  cases a <;> rfl

/-- `COALESCE` absorbs a repeated first argument. -/
theorem coalesce_self {α : Type} (a b : Option α) :
    coalesce a (coalesce a b) = coalesce a b := by
  cases a <;> rfl

/-- `COALESCE` of equal arguments is that argument. -/
theorem coalesce_idem {α : Type} (a : Option α) : coalesce a a = a := by
  cases a <;> rfl

/-- An item upsert commutes with stripping `fetched_at`: at the content level
it is exactly `coreUpsert` of the corresponding write. -/
theorem upsertItem_core (now : Int) (fid t : String) (s : Option String)
    (url : String) (p : Option Int) (db : List Item) :
    (upsertItem now fid t s url p db).1.map Item.core =
      coreUpsert { feed_id := fid, title := t, summary := s, url := url,
                   published_at := p } (db.map Item.core) := by
  induction db with
  | nil => rfl
  | cons it rest ih =>
    by_cases hmatch : it.feed_id = fid ∧ it.url = url
    · have hcond : (it.feed_id == fid && it.url == url) = true := by
        simp [hmatch.1, hmatch.2]
      simp [upsertItem, hcond, coreUpsert, Item.core, applyUpdate, ItemCore.key,
        Write.key, Prod.mk.injEq, hmatch.1, hmatch.2]
    · have hcond : (it.feed_id == fid && it.url == url) = false := by
        by_cases h1 : it.feed_id = fid
        · by_cases h2 : it.url = url
          · exact absurd ⟨h1, h2⟩ hmatch
          · simp [h1, h2]
        · simp [h1]
      simp [upsertItem, hcond, coreUpsert, Item.core, ItemCore.key, Write.key,
        Prod.mk.injEq, hmatch, ih]

/-- The entire `insert_items` loop, at the content level, is the fold of
`coreUpsert` over the valid entries' writes. -/
theorem insertItemsGo_core (now : Int) (fid : String) (es : List Entry) :
    ∀ (db : List Item) (ins upd : Nat),
      (insertItemsGo now fid es db ins upd).1.map Item.core =
        coreSteps (db.map Item.core) ((es.filter entryValid).map (entryWrite fid)) := by
  induction es with
  | nil => intro db ins upd; simp [insertItemsGo, coreSteps]
  | cons e es ih =>
    intro db ins upd
    by_cases hv : (entryTitle e == "" || entryLink e == "") = true
    · have hval : entryValid e = false := by
        simp only [entryValid]
        rcases Bool.or_eq_true_iff.mp hv with h | h <;> simp [h]
      simp [insertItemsGo, hv, ih, hval]
    · have hval : entryValid e = true := by
        simp only [Bool.or_eq_true_iff, not_or] at hv
        simp [entryValid, Bool.not_eq_true (entryTitle e == ""),
          Bool.not_eq_true (entryLink e == ""), hv.1, hv.2]
      by_cases hwin : ((upsertItem now fid (entryTitle e) (entrySummary e)
          (entryLink e) e.published db).2 > now - 60) <;>
        simp [insertItemsGo, hv, hwin, ih, hval, entryWrite, upsertItem_core,
          coreSteps]

/-- `insert_items`, at the content level, is `coreSteps` over `writesOf`. -/
theorem insert_items_core (db : List Item) (now : Int) (fid : String)
    (entries : List Entry) (max_items : Nat) :
    (insert_items db now fid entries max_items).1.map Item.core =
      coreSteps (db.map Item.core) (writesOf fid entries max_items) := by
  simp [insert_items, writesOf, insertItemsGo_core]

/-- Pointwise effect of one upsert on the first row at key `k`. -/
theorem rowAt_coreUpsert (w : Write) (k : String × String) (s : List ItemCore) :
    rowAt k (coreUpsert w s) =
      if w.key = k then some (applyW w (rowAt k s)) else rowAt k s := by
  induction s with
  | nil =>
    by_cases hk : w.key = k <;>
      simp [coreUpsert, rowAt, applyW, insertRow_key, hk]
  | cons r rs ih =>
    simp only [coreUpsert]
    by_cases hr : r.key = w.key
    · rw [if_pos hr]
      by_cases hk : w.key = k
      · have hrk : r.key = k := hr.trans hk
        simp [rowAt, applyUpdate_key, hrk, hk, applyW]
      · have hrk : ¬(r.key = k) := fun h => hk (hr.symm.trans h)
        simp [rowAt, applyUpdate_key, hrk, hk]
    · rw [if_neg hr]
      by_cases hrk : r.key = k
      · have hwk : ¬(w.key = k) := fun h => hr (hrk.trans h.symm)
        simp [rowAt, hrk, hwk]
      · simp only [rowAt, List.find?_cons] at ih ⊢
        have hbeq : (r.key == k) = false := by simp [hrk]
        simp only [hbeq]
        exact ih

/-- Pointwise effect of a sequence of upserts: fold the writes whose key is
`k` over the row at `k`. -/
theorem rowAt_coreSteps (k : String × String) (ws : List Write) :
    ∀ s : List ItemCore,
      rowAt k (coreSteps s ws) =
        foldApplied (ws.filter (fun w => w.key == k)) (rowAt k s) := by
  induction ws with
  | nil => intro s; simp [coreSteps, foldApplied]
  | cons w ws ih =>
    intro s
    rw [show coreSteps s (w :: ws) = coreSteps (coreUpsert w s) ws from rfl, ih,
      rowAt_coreUpsert, List.filter_cons]
    by_cases hk : w.key = k <;> simp [hk, foldApplied]

/-- Applying a second same-key write on top of a first collapses to applying
their overwrite composition. -/
theorem applyW_applyW (u w : Write) (hk : u.key = w.key) (r : Option ItemCore) :
    applyW u (some (applyW w r)) = applyW (u.comp w) r := by
  have hf : u.feed_id = w.feed_id := congrArg Prod.fst hk
  have hu : u.url = w.url := congrArg Prod.snd hk
  cases r with
  | none => simp [applyW, applyUpdate, insertRow, Write.comp, hf, hu]
  | some x => simp [applyW, applyUpdate, Write.comp, coalesce_assoc]

/-- Overwrite composition is associative. -/
theorem write_comp_assoc (v u w : Write) :
    (v.comp u).comp w = v.comp (u.comp w) := by
  simp [Write.comp, coalesce_assoc]

/-- Overwrite composition keeps the left write's key. -/
theorem write_comp_key (u w : Write) : (u.comp w).key = u.key := rfl

/-- Composing a write with itself changes nothing. -/
theorem write_comp_self (w : Write) : w.comp w = w := by
  cases w
  simp [Write.comp, coalesce_idem]

/-- `compFold` commutes with a pre-composed base write. -/
theorem compFold_comp (us : List Write) :
    ∀ u w : Write, (compFold u us).comp w = compFold (u.comp w) us := by
  induction us with
  | nil => intro u w; rfl
  | cons v vs ih =>
    intro u w
    rw [show compFold u (v :: vs) = compFold (v.comp u) vs from rfl,
      ih (v.comp u) w, write_comp_assoc,
      show compFold (u.comp w) (v :: vs) = compFold (v.comp (u.comp w)) vs from rfl]

/-- `compFold` keeps the base write's key when every folded write shares it. -/
theorem compFold_key (us : List Write) :
    ∀ w : Write, (∀ u ∈ us, u.key = w.key) → (compFold w us).key = w.key := by
  induction us with
  | nil => intro w _; rfl
  | cons v vs ih =>
    intro w h
    rw [show compFold w (v :: vs) = compFold (v.comp w) vs from rfl]
    have hv : (v.comp w).key = w.key := by
      rw [write_comp_key]; exact h v (List.mem_cons_self _ _)
    have hvs : ∀ u ∈ vs, u.key = (v.comp w).key := by
      intro u hu
      rw [hv]
      exact h u (List.mem_cons_of_mem _ hu)
    rw [ih (v.comp w) hvs, hv]

/-- A non-empty same-key write sequence folds to a single composed write. -/
theorem foldApplied_compFold (us : List Write) :
    ∀ (w : Write) (r : Option ItemCore), (∀ u ∈ us, u.key = w.key) →
      foldApplied (w :: us) r = some (applyW (compFold w us) r) := by
  induction us with
  | nil => intro w r _; rfl
  | cons u us ih =>
    intro w r h
    have hu : u.key = w.key := h u (List.mem_cons_self _ _)
    have hus : ∀ v ∈ us, v.key = u.key := by
      intro v hv
      rw [hu]
      exact h v (List.mem_cons_of_mem _ hv)
    rw [show foldApplied (w :: u :: us) r =
        foldApplied (u :: us) (some (applyW w r)) from rfl,
      ih u (some (applyW w r)) hus,
      applyW_applyW (compFold u us) w ((compFold_key us u hus).trans hu) r,
      compFold_comp,
      show compFold w (u :: us) = compFold (u.comp w) us from rfl]

/-- Applying a same-key write sequence a second time changes nothing. -/
theorem foldApplied_idem (vs : List Write) (k : String × String)
    (h : ∀ u ∈ vs, u.key = k) (r : Option ItemCore) :
    foldApplied vs (foldApplied vs r) = foldApplied vs r := by
  cases vs with
  | nil => rfl
  | cons w us =>
    have hks : ∀ u ∈ us, u.key = w.key := by
      intro u hu
      rw [h u (List.mem_cons_of_mem _ hu), ← h w (List.mem_cons_self _ _)]
    rw [foldApplied_compFold us w r hks,
      foldApplied_compFold us w (some (applyW (compFold w us) r)) hks,
      applyW_applyW _ _ rfl r, write_comp_self]

/-- Key presence after one upsert: the written key joins the stored ones. -/
theorem hasKey_coreUpsert (w : Write) (k : String × String) :
    ∀ s : List ItemCore,
      hasKey (coreUpsert w s) k = (hasKey s k || (w.key == k)) := by
  intro s
  induction s with
  | nil => simp [coreUpsert, hasKey, insertRow_key]
  | cons r rs ih =>
    simp only [coreUpsert]
    by_cases hr : r.key = w.key
    · rw [if_pos hr]
      simp only [hasKey, List.any_cons, applyUpdate_key, hr]
      cases hwk : (w.key == k) <;> simp [hwk]
    · rw [if_neg hr]
      simp only [hasKey, List.any_cons] at ih ⊢
      rw [ih, Bool.or_assoc]

/-- Key presence after a sequence of upserts. -/
theorem hasKey_coreSteps (ws : List Write) :
    ∀ (s : List ItemCore) (k : String × String),
      hasKey (coreSteps s ws) k =
        (hasKey s k || ws.any (fun w => w.key == k)) := by
  induction ws with
  | nil => intro s k; simp [coreSteps]
  | cons w ws ih =>
    intro s k
    rw [show coreSteps s (w :: ws) = coreSteps (coreUpsert w s) ws from rfl,
      ih, hasKey_coreUpsert, List.any_cons, Bool.or_assoc,
      Bool.or_comm (w.key == k)]

/-- The stored key sequence after one upsert. -/
theorem keys_coreUpsert (w : Write) :
    ∀ s : List ItemCore,
      (coreUpsert w s).map ItemCore.key =
        if hasKey s w.key then s.map ItemCore.key
        else s.map ItemCore.key ++ [w.key] := by
  intro s
  induction s with
  | nil => simp [coreUpsert, hasKey, insertRow_key]
  | cons r rs ih =>
    simp only [coreUpsert]
    by_cases hr : r.key = w.key
    · rw [if_pos hr]
      have : hasKey (r :: rs) w.key = true := by
        simp [hasKey, List.any_cons, hr]
      simp [this, applyUpdate_key, hr]
    · rw [if_neg hr]
      have hhead : hasKey (r :: rs) w.key = hasKey rs w.key := by
        simp [hasKey, List.any_cons, hr, Ne.symm]
      by_cases hrs : hasKey rs w.key = true <;>
        simp [hhead, hrs, ih, List.map_cons]

/-- A key is absent exactly when no stored row carries it. -/
theorem hasKey_eq_false {s : List ItemCore} {k : String × String} :
    hasKey s k = false ↔ k ∉ s.map ItemCore.key := by
  simp only [hasKey, List.any_eq_false, List.mem_map, beq_iff_eq, not_exists,
    not_and]

/-- Upserting preserves the no-duplicate-keys invariant. -/
theorem nodup_coreUpsert (w : Write) (s : List ItemCore)
    (h : (s.map ItemCore.key).Nodup) :
    ((coreUpsert w s).map ItemCore.key).Nodup := by
  rw [keys_coreUpsert]
  by_cases hk : hasKey s w.key = true
  · simpa [hk] using h
  · have habs : w.key ∉ s.map ItemCore.key :=
      hasKey_eq_false.mp (Bool.eq_false_iff.mpr hk)
    have : hasKey s w.key = false := Bool.eq_false_iff.mpr hk
    simp only [this, Bool.false_eq_true, if_false]
    rw [List.nodup_append]
    refine ⟨h, List.nodup_singleton _, ?_⟩
    intro a ha hb
    rw [List.mem_singleton] at hb
    exact habs (hb ▸ ha)

/-- A sequence of upserts preserves the no-duplicate-keys invariant. -/
theorem nodup_coreSteps (ws : List Write) :
    ∀ s : List ItemCore, (s.map ItemCore.key).Nodup →
      ((coreSteps s ws).map ItemCore.key).Nodup := by
  induction ws with
  | nil => intro s h; exact h
  | cons w ws ih =>
    intro s h
    exact ih (coreUpsert w s) (nodup_coreUpsert w s h)

/-- With unique keys and the written key present, an upsert is an in-place
update of the one matching row. -/
theorem coreUpsert_eq_map (w : Write) :
    ∀ s : List ItemCore, (s.map ItemCore.key).Nodup → hasKey s w.key = true →
      coreUpsert w s =
        s.map (fun r => if r.key = w.key then applyUpdate w r else r) := by
  intro s
  induction s with
  | nil => intro _ habs; simp [hasKey] at habs
  | cons r rs ih =>
    intro hnd hk
    simp only [coreUpsert, List.map_cons]
    by_cases hr : r.key = w.key
    · rw [if_pos hr, if_pos hr]
      have habs : w.key ∉ rs.map ItemCore.key := by
        rw [← hr]
        exact (List.nodup_cons.mp hnd).1
      have : rs.map (fun x => if x.key = w.key then applyUpdate w x else x) = rs := by
        apply List.map_congr_left ?_ |>.trans (List.map_id rs)
        intro x hx
        have : x.key ≠ w.key := fun h =>
          habs (h ▸ List.mem_map_of_mem ItemCore.key hx)
        simp [this]
      rw [this]
    · rw [if_neg hr, if_neg hr]
      have hkrs : hasKey rs w.key = true := by
        have := hk
        simp only [hasKey, List.any_cons] at this
        rcases Bool.or_eq_true_iff.mp this with h | h
        · exact absurd (beq_iff_eq.mp h) hr
        · exact h
      rw [ih (List.nodup_cons.mp hnd).2 hkrs]

/-- `hasKey` only looks at keys, so key-preserving row maps leave it alone. -/
theorem hasKey_map_of_key_eq {s : List ItemCore} {f : ItemCore → ItemCore}
    (hf : ∀ r, (f r).key = r.key) (k : String × String) :
    hasKey (s.map f) k = hasKey s k := by
  simp [hasKey, List.any_map, Function.comp_def, hf]

/-- With unique keys all present, a sequence of upserts is the row-wise fold
of each row's matching writes. -/
theorem coreSteps_eq_map (ws : List Write) :
    ∀ s : List ItemCore, (s.map ItemCore.key).Nodup →
      (∀ w ∈ ws, hasKey s w.key = true) →
      coreSteps s ws = s.map (rowFold ws) := by
  induction ws with
  | nil =>
    intro s _ _
    rw [show coreSteps s [] = s from rfl]
    symm
    apply List.map_congr_left ?_ |>.trans (List.map_id s)
    intro r _
    rfl
  | cons w ws ih =>
    intro s hnd hk
    have hw := hk w (List.mem_cons_self _ _)
    rw [show coreSteps s (w :: ws) = coreSteps (coreUpsert w s) ws from rfl,
      coreUpsert_eq_map w s hnd hw]
    have hgkey : ∀ r : ItemCore,
        ((fun r => if r.key = w.key then applyUpdate w r else r) r).key = r.key := by
      intro r
      by_cases h : r.key = w.key <;> simp [h, applyUpdate_key]
    have hnd2 : ((s.map
        (fun r => if r.key = w.key then applyUpdate w r else r)).map
          ItemCore.key).Nodup := by
      rw [List.map_map]
      have : (ItemCore.key ∘ fun r => if r.key = w.key then applyUpdate w r else r)
          = ItemCore.key := by
        funext r
        exact hgkey r
      rw [this]
      exact hnd
    have hk2 : ∀ u ∈ ws, hasKey
        (s.map (fun r => if r.key = w.key then applyUpdate w r else r)) u.key
          = true := by
      intro u hu
      rw [hasKey_map_of_key_eq hgkey]
      exact hk u (List.mem_cons_of_mem _ hu)
    rw [ih _ hnd2 hk2, List.map_map]
    apply List.map_congr_left
    intro r _
    simp only [Function.comp_apply]
    by_cases hr : r.key = w.key
    · rw [if_pos hr]
      simp [rowFold, List.filter_cons, applyUpdate_key, hr]
    · rw [if_neg hr]
      have hb : (w.key == r.key) = false := by
        simp only [beq_eq_false_iff_ne, ne_eq]
        exact fun h => hr h.symm
      simp [rowFold, List.filter_cons, hb]

/-- With unique keys, the first row found at a member's key is that member. -/
theorem rowAt_of_mem :
    ∀ s : List ItemCore, (s.map ItemCore.key).Nodup →
      ∀ r ∈ s, rowAt r.key s = some r := by
  intro s
  induction s with
  | nil => intro _ r hr; cases hr
  | cons x xs ih =>
    intro hnd r hr
    rcases List.mem_cons.mp hr with h | h
    · subst h
      simp [rowAt, List.find?_cons]
    · have hne : (x.key == r.key) = false := by
        have hx : x.key ∉ xs.map ItemCore.key := (List.nodup_cons.mp hnd).1
        have : r.key ∈ xs.map ItemCore.key := List.mem_map_of_mem ItemCore.key h
        simp only [beq_eq_false_iff_ne, ne_eq]
        intro hEq
        exact hx (hEq ▸ this)
      simp only [rowAt, List.find?_cons, hne]
      exact ih (List.nodup_cons.mp hnd).2 r h

/-- Folding same-key writes over a present row never leaves `some`. -/
theorem foldApplied_some (vs : List Write) :
    ∀ x : ItemCore,
      foldApplied vs (some x) =
        some (vs.foldl (fun a w => applyUpdate w a) x) := by
  induction vs with
  | nil => intro x; rfl
  | cons w vs ih =>
    intro x
    rw [show foldApplied (w :: vs) (some x) =
        foldApplied vs (some (applyW w (some x))) from rfl,
      show applyW w (some x) = applyUpdate w x from rfl, ih]
    rfl

/-- Replaying a whole write sequence against the store it produced changes
nothing (content-level idempotence of the upsert batch). -/
theorem coreSteps_idem (ws : List Write) (s : List ItemCore)
    (hnd : (s.map ItemCore.key).Nodup) :
    coreSteps (coreSteps s ws) ws = coreSteps s ws := by
  have hnd1 : ((coreSteps s ws).map ItemCore.key).Nodup := nodup_coreSteps ws s hnd
  have hkeys : ∀ w ∈ ws, hasKey (coreSteps s ws) w.key = true := by
    intro w hw
    rw [hasKey_coreSteps]
    have : ws.any (fun u => u.key == w.key) = true :=
      List.any_eq_true.mpr ⟨w, hw, by simp⟩
    simp [this]
  rw [coreSteps_eq_map ws (coreSteps s ws) hnd1 hkeys]
  apply (List.map_congr_left ?_).trans (List.map_id (coreSteps s ws))
  intro r hr
  show rowFold ws r = r
  have hrow : rowAt r.key (coreSteps s ws) = some r :=
    rowAt_of_mem (coreSteps s ws) hnd1 r hr
  have hfa := rowAt_coreSteps r.key ws s
  have hkeysvs : ∀ u ∈ ws.filter (fun w => w.key == r.key), u.key = r.key := by
    intro u hu
    have := List.of_mem_filter hu
    simpa [beq_iff_eq] using this
  have hidem := foldApplied_idem (ws.filter (fun w => w.key == r.key)) r.key
    hkeysvs (rowAt r.key s)
  have h2 : foldApplied (ws.filter (fun w => w.key == r.key)) (some r)
      = some r := by
    rw [← hrow, hfa, hidem]
  have h1 : foldApplied (ws.filter (fun w => w.key == r.key)) (some r)
      = some (rowFold ws r) := by
    rw [foldApplied_some]
    rfl
  exact Option.some.inj (h1.symm.trans h2)

/-- Claim C6 (confirmed): running `insert_items` a second time with the same
entry list against the store the first run produced (the store's
`(feed_id, url)` keys are unique, as the `items_feed_id_url_unique` index
guarantees) inserts zero new rows — the stores have the same length — and
changes no field of any item other than `fetched_at`: stripping `fetched_at`
from every row yields identical stores. -/
theorem claim_C6 (db : List Item) (now1 now2 : Int) (fid : String)
    (entries : List Entry) (max_items : Nat)
    (hnd : ((db.map Item.core).map ItemCore.key).Nodup) :
    (insert_items (insert_items db now1 fid entries max_items).1 now2 fid
        entries max_items).1.map Item.core =
      (insert_items db now1 fid entries max_items).1.map Item.core ∧
    (insert_items (insert_items db now1 fid entries max_items).1 now2 fid
        entries max_items).1.length =
      (insert_items db now1 fid entries max_items).1.length := by
  have heq : (insert_items (insert_items db now1 fid entries max_items).1 now2
      fid entries max_items).1.map Item.core =
      (insert_items db now1 fid entries max_items).1.map Item.core := by
    rw [insert_items_core, insert_items_core db now1 fid entries max_items,
      coreSteps_idem (writesOf fid entries max_items) (db.map Item.core) hnd,
      ← insert_items_core db now1 fid entries max_items]
  refine ⟨heq, ?_⟩
  have := congrArg List.length heq
  simpa using this

/-- Witness for C6: re-ingesting two concrete entries over the store the
first ingest produced changes nothing but `fetched_at`. -/
theorem claim_C6_witness :
    (insert_items (insert_items ([] : List Item) 100 "feed-a"
        [entryE1, entryE2] 3).1 200 "feed-a" [entryE1, entryE2] 3).1.map
      Item.core =
    (insert_items ([] : List Item) 100 "feed-a" [entryE1, entryE2] 3).1.map
      Item.core :=
  (claim_C6 ([] : List Item) 100 200 "feed-a" [entryE1, entryE2] 3
    (by decide)).1

/-- Upserting one write changes the store length only when its key is fresh. -/
theorem coreUpsert_length (w : Write) (s : List ItemCore) :
    (coreUpsert w s).length =
      if hasKey s w.key then s.length else s.length + 1 := by
  have h := congrArg List.length (keys_coreUpsert w s)
  simp only [List.length_map, List.length_append, List.length_singleton,
    apply_ite List.length] at h
  simpa using h

/-- Upserting writes with pairwise fresh, mutually distinct keys grows the
store by exactly one row per write. -/
theorem coreSteps_length_disjoint (ws : List Write) :
    ∀ s : List ItemCore, (ws.map Write.key).Nodup →
      (∀ w ∈ ws, hasKey s w.key = false) →
      (coreSteps s ws).length = s.length + ws.length := by
  induction ws with
  | nil => intro s _ _; simp [coreSteps]
  | cons w ws ih =>
    intro s hnd hdis
    have hw : hasKey s w.key = false := hdis w (List.mem_cons_self _ _)
    have hdis2 : ∀ u ∈ ws, hasKey (coreUpsert w s) u.key = false := by
      intro u hu
      rw [hasKey_coreUpsert]
      have h1 : hasKey s u.key = false := hdis u (List.mem_cons_of_mem _ hu)
      have h2 : (w.key == u.key) = false := by
        have hne : w.key ∉ ws.map Write.key := (List.nodup_cons.mp hnd).1
        simp only [beq_eq_false_iff_ne, ne_eq]
        intro hEq
        exact hne (hEq ▸ List.mem_map_of_mem Write.key hu)
      rw [h1, h2]
      rfl
    rw [show coreSteps s (w :: ws) = coreSteps (coreUpsert w s) ws from rfl,
      ih (coreUpsert w s) (List.nodup_cons.mp hnd).2 hdis2, coreUpsert_length,
      hw]
    simp only [Bool.false_eq_true, if_false, List.length_cons]
    omega

/-- Claim C9 (confirmed): when every entry of a feed's parsed body is valid
(non-empty title and link), `insert_items` performs exactly
`min (entries.length) max_items` writes — the write list is exactly the front
`entries[:max_items]` of the source-ordered entry list — and, when those
writes carry fresh, mutually distinct `(feed_id, url)` keys, exactly that many
new item rows are created. -/
theorem claim_C9 (db : List Item) (now : Int) (fid : String)
    (entries : List Entry) (max_items : Nat)
    (hval : ∀ e ∈ entries, entryValid e = true)
    (hnd : ((writesOf fid entries max_items).map Write.key).Nodup)
    (hdis : ∀ w ∈ writesOf fid entries max_items,
      hasKey (db.map Item.core) w.key = false) :
    (insert_items db now fid entries max_items).2 =
      min entries.length max_items ∧
    writesOf fid entries max_items = (entries.take max_items).map
      (entryWrite fid) ∧
    (insert_items db now fid entries max_items).1.length =
      db.length + min entries.length max_items := by
  have hvt : ∀ e ∈ entries.take max_items, entryValid e = true :=
    fun e he => hval e (List.mem_of_mem_take he)
  have hfil : (entries.take max_items).filter entryValid =
      entries.take max_items := List.filter_eq_self.mpr hvt
  have hwlen : (writesOf fid entries max_items).length =
      min entries.length max_items := by
    rw [writesOf, hfil, List.length_map, List.length_take, Nat.min_comm]
  refine ⟨?_, ?_, ?_⟩
  · rw [show (insert_items db now fid entries max_items).2 =
        (insertItemsGo now fid (entries.take max_items) db 0 0).2.1 from rfl,
      insertItemsGo_count]
    rw [List.countP_eq_length.mpr hvt, List.length_take, Nat.min_comm]
    omega
  · rw [writesOf, hfil]
  · have hmap := congrArg List.length
      (insert_items_core db now fid entries max_items)
    simp only [List.length_map] at hmap
    rw [hmap, coreSteps_length_disjoint (writesOf fid entries max_items)
      (db.map Item.core) hnd hdis, List.length_map, hwlen]

/-- Witness for C9: four concrete valid entries with `max_items_per_feed = 3`
against an empty store produce exactly 3 writes and 3 item rows. -/
theorem claim_C9_witness :
    (insert_items ([] : List Item) 0 "feed-a"
        [entryE1, entryE2, entryE3, entryE4] 3).2 = 3 ∧
    (insert_items ([] : List Item) 0 "feed-a"
        [entryE1, entryE2, entryE3, entryE4] 3).1.length = 3 := by
  have h := claim_C9 ([] : List Item) 0 "feed-a"
    [entryE1, entryE2, entryE3, entryE4] 3 (by decide) (by decide) (by decide)
  exact ⟨by simpa using h.1, by simpa using h.2.2⟩

end RssIngest
